import Mathlib

/-!
Verification of the greeclimate protocol client against its specification.

The repository ships the device facade (device.py) and the tests; the network
module holding the codec and the session protocol is not part of the source
tree, so those components are modelled from the specification (each such
definition carries a doc comment starting with "Modelled from the spec:").
Byte strings are represented as lists of naturals; JSON-like structures as the
inductive type JVal.
-/

namespace Gree

/-- A byte is an ASCII digit. -/
def isDigit (c : Nat) : Bool := 48 ≤ c && c ≤ 57

/-- A byte may appear inside a JSON string without escaping: printable ASCII,
not a double quote, not a backslash. -/
def strOk (c : Nat) : Bool := 32 ≤ c && c ≤ 126 && c ≠ 34 && c ≠ 92

/-- JSON-like values: the plaintext structures carried inside the encrypted
pack field of a protocol packet.  Objects are ordered name-value lists, per the
ordered-mapping reading of PropertyMap in the spec. -/
inductive JVal where
  | str (s : List Nat)
  | num (n : Int)
  | arr (xs : List JVal)
  | obj (kvs : List (List Nat × JVal))
deriving Repr

/-- Decimal digits of a natural number, big endian, as ASCII bytes. -/
def natDigits (n : Nat) : List Nat :=
  if _h : n < 10 then [48 + n] else natDigits (n / 10) ++ [48 + n % 10]
termination_by n
decreasing_by omega

/-- Render an integer in decimal with an optional leading minus sign. -/
def renderInt (n : Int) : List Nat :=
  if n < 0 then 45 :: natDigits n.natAbs else natDigits n.toNat

mutual
/-- Modelled from the spec: the canonical text form the codec serializes a
structure to before encrypting (compact JSON rendering). -/
def renderJ : JVal → List Nat
  | .str s => 34 :: s ++ [34]
  | .num n => renderInt n
  | .arr [] => [91, 93]
  | .arr (x :: xs) => 91 :: renderElems x xs
  | .obj [] => [123, 125]
  | .obj (kv :: kvs) => 123 :: renderMembs kv kvs
termination_by v => sizeOf v
decreasing_by all_goals (simp_wf <;> omega)

/-- Rendering of a comma separated nonempty element list, closing bracket included. -/
def renderElems : JVal → List JVal → List Nat
  | x, [] => renderJ x ++ [93]
  | x, y :: ys => renderJ x ++ 44 :: renderElems y ys
termination_by x xs => sizeOf x + sizeOf xs
decreasing_by all_goals (simp_wf <;> omega)

/-- Rendering of a comma separated nonempty member list, closing brace included. -/
def renderMembs : (List Nat × JVal) → List (List Nat × JVal) → List Nat
  | (k, v), [] => 34 :: k ++ 34 :: 58 :: renderJ v ++ [125]
  | (k, v), kv :: kvs => 34 :: k ++ 34 :: 58 :: renderJ v ++ 44 :: renderMembs kv kvs
termination_by kv kvs => sizeOf kv + sizeOf kvs
decreasing_by all_goals (simp_wf <;> omega)
end

mutual
/-- A structure is valid when every string byte in it is representable without
escapes; such structures cover all protocol payloads. -/
def validJ : JVal → Bool
  | .str s => s.all strOk
  | .num _ => true
  | .arr xs => validElems xs
  | .obj kvs => validMembs kvs

/-- Validity of an element list. -/
def validElems : List JVal → Bool
  | [] => true
  | x :: xs => validJ x && validElems xs

/-- Validity of a member list. -/
def validMembs : List (List Nat × JVal) → Bool
  | [] => true
  | (k, v) :: kvs => k.all strOk && validJ v && validMembs kvs
end

/-- Parse the body of a JSON string up to and including the closing quote. -/
def parseStr : List Nat → Option (List Nat × List Nat)
  | [] => none
  | c :: rest =>
    if c = 34 then some ([], rest)
    else if strOk c then (parseStr rest).map (fun p => (c :: p.1, p.2)) else none

/-- Consume a maximal run of digit bytes, accumulating their decimal value. -/
def parseDigitsAux (acc : Nat) : List Nat → Nat × List Nat
  | [] => (acc, [])
  | c :: rest =>
    if isDigit c then parseDigitsAux (acc * 10 + (c - 48)) rest else (acc, c :: rest)

mutual
/-- Modelled from the spec: the parse step of the codec decrypt direction,
recovering a structure from its canonical text form.  Fuel bounds the nesting
recursion. -/
def parseV : Nat → List Nat → Option (JVal × List Nat)
  | 0, _ => none
  | fuel + 1, bs =>
    match bs with
    | [] => none
    | c :: rest =>
      if c = 34 then
        (parseStr rest).map (fun p => (JVal.str p.1, p.2))
      else if c = 45 then
        match rest with
        | [] => none
        | d :: _ =>
          if isDigit d then
            let p := parseDigitsAux 0 rest
            some (JVal.num (-(p.1 : Int)), p.2)
          else none
      else if isDigit c then
        let p := parseDigitsAux 0 (c :: rest)
        some (JVal.num (p.1 : Int), p.2)
      else if c = 91 then
        match rest with
        | [] => none
        | c2 :: rest2 =>
          if c2 = 93 then some (JVal.arr [], rest2)
          else (parseElems fuel rest).map (fun p => (JVal.arr p.1, p.2))
      else if c = 123 then
        match rest with
        | [] => none
        | c2 :: rest2 =>
          if c2 = 125 then some (JVal.obj [], rest2)
          else (parseMembs fuel rest).map (fun p => (JVal.obj p.1, p.2))
      else none

/-- Parse one or more comma separated array elements and the closing bracket. -/
def parseElems : Nat → List Nat → Option (List JVal × List Nat)
  | 0, _ => none
  | fuel + 1, bs =>
    match parseV fuel bs with
    | none => none
    | some (v, r) =>
      match r with
      | [] => none
      | c :: r2 =>
        if c = 44 then (parseElems fuel r2).map (fun p => (v :: p.1, p.2))
        else if c = 93 then some ([v], r2)
        else none

/-- Parse one or more comma separated object members and the closing brace. -/
def parseMembs : Nat → List Nat → Option (List (List Nat × JVal) × List Nat)
  | 0, _ => none
  | fuel + 1, bs =>
    match bs with
    | [] => none
    | c :: r =>
      if c = 34 then
        match parseStr r with
        | none => none
        | some (k, r2) =>
          match r2 with
          | [] => none
          | c2 :: r3 =>
            if c2 = 58 then
              match parseV fuel r3 with
              | none => none
              | some (v, r4) =>
                match r4 with
                | [] => none
                | c3 :: r5 =>
                  if c3 = 44 then (parseMembs fuel r5).map (fun p => ((k, v) :: p.1, p.2))
                  else if c3 = 125 then some ([(k, v)], r5)
                  else none
            else none
      else none
end

mutual
/-- Fuel sufficient for parseV to reparse the rendering of a value. -/
def needJ : JVal → Nat
  | .str _ => 1
  | .num _ => 1
  | .arr [] => 1
  | .arr (x :: xs) => 1 + needElems x xs
  | .obj [] => 1
  | .obj (kv :: kvs) => 1 + needMembs kv kvs
termination_by v => sizeOf v
decreasing_by all_goals (simp_wf <;> omega)

/-- Fuel sufficient for parseElems over a rendered nonempty element list. -/
def needElems : JVal → List JVal → Nat
  | x, [] => 1 + needJ x
  | x, y :: ys => 1 + max (needJ x) (needElems y ys)
termination_by x xs => sizeOf x + sizeOf xs
decreasing_by all_goals (simp_wf <;> omega)

/-- Fuel sufficient for parseMembs over a rendered nonempty member list. -/
def needMembs : (List Nat × JVal) → List (List Nat × JVal) → Nat
  | (_, v), [] => 1 + needJ v
  | (_, v), kv :: kvs => 1 + max (needJ v) (needMembs kv kvs)
termination_by kv kvs => sizeOf kv + sizeOf kvs
decreasing_by all_goals (simp_wf <;> omega)
end

/-- The input ahead does not start with a digit, so a number parse stops here. -/
def headNonDigit : List Nat → Bool
  | [] => true
  | c :: _ => !(isDigit c)

/-- Modelled from the spec: PKCS number 7 padding of the serialized text to
the 16 byte block size of the cipher. -/
def pkcs7pad (bs : List Nat) : List Nat :=
  bs ++ List.replicate (16 - bs.length % 16) (16 - bs.length % 16)

/-- The padding check once the final byte p is in hand: p must be a plausible
pad length and the last p bytes must all equal p. -/
def pkcs7unpadAux (bs : List Nat) (p : Nat) : Option (List Nat) :=
  if p = 0 ∨ 16 < p ∨ bs.length < p then none
  else if (bs.reverse.take p).all (fun c => c = p) then
    some (bs.take (bs.length - p))
  else none

/-- Modelled from the spec: PKCS number 7 unpadding; none models the invalid
padding case of DecryptionError. -/
def pkcs7unpad (bs : List Nat) : Option (List Nat) :=
  match bs.reverse with
  | [] => none
  | p :: _ => pkcs7unpadAux bs p

/-- Modelled from the spec: the key stream of the abstract symmetric block
cipher.  Every 16 byte block is transformed the same way, so the mode needs
no initialization vector and is stateless per call, as the spec requires. -/
def ksByte (key : List Nat) (i : Nat) : Nat :=
  key.getD (i % 16 % key.length) 0 % 256

/-- Blockwise encryption of the padded plaintext, position i inside the
current block selecting the key stream byte. -/
def ecbEncryptFrom (key : List Nat) (i : Nat) : List Nat → List Nat
  | [] => []
  | b :: bs => (b + ksByte key i) % 256 :: ecbEncryptFrom key (i + 1) bs

/-- Blockwise decryption, the inverse key stream subtraction. -/
def ecbDecryptFrom (key : List Nat) (i : Nat) : List Nat → List Nat
  | [] => []
  | b :: bs => (b + 256 - ksByte key i) % 256 :: ecbDecryptFrom key (i + 1) bs

/-- Encrypt a padded byte string with the per device (or generic) key. -/
def ecbEncrypt (key bs : List Nat) : List Nat := ecbEncryptFrom key 0 bs

/-- Decrypt a ciphertext byte string with the per device (or generic) key. -/
def ecbDecrypt (key bs : List Nat) : List Nat := ecbDecryptFrom key 0 bs

/-- The base64 alphabet: sextet index to ASCII byte. -/
def b64chr (s : Nat) : Nat :=
  if s < 26 then 65 + s
  else if s < 52 then 71 + s
  else if s < 62 then s - 4
  else if s = 62 then 43
  else 47

/-- Inverse of the base64 alphabet; none for bytes outside it. -/
def b64inv (c : Nat) : Option Nat :=
  if 65 ≤ c ∧ c ≤ 90 then some (c - 65)
  else if 97 ≤ c ∧ c ≤ 122 then some (c - 71)
  else if 48 ≤ c ∧ c ≤ 57 then some (c + 4)
  else if c = 43 then some 62
  else if c = 47 then some 63
  else none

/-- Modelled from the spec: the text safe base64 encoding of the ciphertext,
with trailing equals sign padding. -/
def b64encode : List Nat → List Nat
  | a :: b :: c :: rest =>
    b64chr (a / 4) :: b64chr (a % 4 * 16 + b / 16) :: b64chr (b % 16 * 4 + c / 64) ::
      b64chr (c % 64) :: b64encode rest
  | [a, b] => [b64chr (a / 4), b64chr (a % 4 * 16 + b / 16), b64chr (b % 16 * 4), 61]
  | [a] => [b64chr (a / 4), b64chr (a % 4 * 16), 61, 61]
  | [] => []

/-- Modelled from the spec: base64 decoding; none models the malformed
ciphertext case of DecryptionError. -/
def b64decode : List Nat → Option (List Nat)
  | [] => some []
  | c0 :: c1 :: c2 :: c3 :: rest =>
    match b64inv c0, b64inv c1 with
    | some s0, some s1 =>
      if c2 = 61 then
        if c3 = 61 ∧ rest = [] then some [s0 * 4 + s1 / 16] else none
      else
        match b64inv c2 with
        | some s2 =>
          if c3 = 61 then
            if rest = [] then some [s0 * 4 + s1 / 16, s1 % 16 * 16 + s2 / 4] else none
          else
            match b64inv c3 with
            | some s3 =>
              (b64decode rest).map
                (fun bs => (s0 * 4 + s1 / 16) :: (s1 % 16 * 16 + s2 / 4) ::
                  (s2 % 4 * 64 + s3) :: bs)
            | none => none
        | none => none
    | _, _ => none
  | _ => none

/-- Modelled from the spec: the codec encrypt direction: serialize the
structure to its canonical text form, pad to the block size, encrypt with the
symmetric block cipher, and return the text safe base64 encoding. -/
def encrypt_payload (p : JVal) (key : List Nat) : List Nat :=
  b64encode (ecbEncrypt key (pkcs7pad (renderJ p)))

/-- Decode and decrypt the ciphertext text down to the plaintext bytes;
none models the malformed ciphertext and invalid padding failures. -/
def decrypt_bytes (ct key : List Nat) : Option (List Nat) :=
  (b64decode ct).bind (fun cbytes =>
    if cbytes.length % 16 = 0 ∧ cbytes.length ≠ 0 then
      pkcs7unpad (ecbDecrypt key cbytes)
    else none)

/-- Parse recovered plaintext bytes as a structure, requiring the whole text
to be consumed; none models the unparseable plaintext failure. -/
def parse_text (ptext : List Nat) : Option JVal :=
  (parseV (ptext.length + 1) ptext).bind
    (fun p => if p.2 = [] then some p.1 else none)

/-- Modelled from the spec: the codec decrypt direction, the inverse of
encrypt_payload; none models a DecryptionError (malformed ciphertext, invalid
padding, or a result that is not parseable as the expected structure). -/
def decrypt_payload (ct key : List Nat) : Option JVal :=
  (decrypt_bytes ct key).bind parse_text

/-! Protocol byte constants: ASCII byte lists of the field names and literals
of the wire format, and of the fixtures the repository tests use. -/

/-- The field name t. -/
def tB : List Nat := [116]

/-- The command literal bind. -/
def bindB : List Nat := [98, 105, 110, 100]

/-- The response literal bindok. -/
def bindokB : List Nat := [98, 105, 110, 100, 111, 107]

/-- The field name key. -/
def keyB : List Nat := [107, 101, 121]

/-- The field name mac. -/
def macB : List Nat := [109, 97, 99]

/-- The field name cols. -/
def colsB : List Nat := [99, 111, 108, 115]

/-- The field name dat. -/
def datB : List Nat := [100, 97, 116]

/-- The command literal status. -/
def statusB : List Nat := [115, 116, 97, 116, 117, 115]

/-- The field name opt. -/
def optB : List Nat := [111, 112, 116]

/-- The field name p. -/
def pB : List Nat := [112]

/-- The field name val. -/
def valB : List Nat := [118, 97, 108]

/-- The command literal cmd. -/
def cmdB : List Nat := [99, 109, 100]

/-- Modelled from the spec: the fixed, publicly known generic key used for all
scan and bind exchanges before a device specific key exists. -/
def generic_key : List Nat :=
  [97, 51, 75, 56, 66, 120, 37, 50, 114, 56, 89, 55, 35, 120, 68, 104]

/-- The test fixture key name fake-key. -/
def fakeKeyB : List Nat := [102, 97, 107, 101, 45, 107, 101, 121]

/-- The test fixture value fake-value. -/
def fakeValB : List Nat := [102, 97, 107, 101, 45, 118, 97, 108, 117, 101]

/-- The test fixture device key acbd1234. -/
def acbdB : List Nat := [97, 99, 98, 100, 49, 50, 51, 52]

/-- The test fixture property name prop-a. -/
def propAB : List Nat := [112, 114, 111, 112, 45, 97]

/-- The test fixture property name prop-b. -/
def propBB : List Nat := [112, 114, 111, 112, 45, 98]

/-- The test fixture value val-a. -/
def valAB : List Nat := [118, 97, 108, 45, 97]

/-- The test fixture value val-b. -/
def valBB : List Nat := [118, 97, 108, 45, 98]

/-- Error taxonomy of the session protocol layer, following the error
handling design section of the spec. -/
inductive NetErr where
  | timeout
  | decryptionError
  | protocolError
deriving DecidableEq, Repr

/-- An ordered name to value mapping, the PropertyMap of the spec. -/
abbrev PropMap := List (List Nat × JVal)

/-- Lookup by name in an ordered name-value list. -/
def lookupKv : PropMap → List Nat → Option JVal
  | [], _ => none
  | (k, v) :: rest, key => if k = key then some v else lookupKv rest key

/-- Field access on a decrypted payload structure. -/
def jGet (v : JVal) (k : List Nat) : Option JVal :=
  match v with
  | .obj kvs => lookupKv kvs k
  | _ => none

/-- Extract the property names of a response list; every element must be a
string for the response to be well shaped. -/
def strNames : List JVal → Option (List (List Nat))
  | [] => some []
  | .str s :: rest => (strNames rest).map (fun ns => s :: ns)
  | _ => none

/-- Modelled from the spec: the bind request payload sent by bind_device,
carrying the hardware identifier and encrypted with the generic key. -/
def bind_request (mac : List Nat) : List Nat :=
  encrypt_payload (.obj [(macB, .str mac), (tB, .str bindB)]) generic_key

/-- Modelled from the spec: the status request payload of request_state,
listing the requested property names. -/
def status_request (props : List (List Nat)) (mac key : List Nat) : List Nat :=
  encrypt_payload
    (.obj [(colsB, .arr (props.map JVal.str)), (macB, .str mac),
      (tB, .str statusB)]) key

/-- Modelled from the spec: the cmd request payload of send_state, option list
paired with value list in order. -/
def cmd_request (props : PropMap) (key : List Nat) : List Nat :=
  encrypt_payload
    (.obj [(optB, .arr (props.map (fun kv => JVal.str kv.1))),
      (pB, .arr (props.map Prod.snd)), (tB, .str cmdB)]) key

/-- Modelled from the spec: bind_device of the absent network module.  The
single request, single response exchange is modelled by the optional received
pack ciphertext: none is an elapsed receive window, which fails with the
timeout error; some ct is the arriving response, decrypted with the generic
key, checked to be a bindok payload, and mined for the new device key. -/
def bind_device (recv : Option (List Nat)) : Except NetErr (List Nat) :=
  match recv with
  | none => .error .timeout
  | some ct =>
    match decrypt_payload ct generic_key with
    | none => .error .decryptionError
    | some p =>
      match jGet p tB with
      | some (.str t) =>
        if t = bindokB then
          match jGet p keyB with
          | some (.str k) => .ok k
          | _ => .error .protocolError
        else .error .protocolError
      | _ => .error .protocolError

/-- Modelled from the spec: request_state of the absent network module: after
sending a status command for the given names, the response is decrypted with
the device key and its cols and dat lists are zipped by position into a
PropertyMap; a wrong response shape or mismatched list lengths is a protocol
error.  The received optional ciphertext models the exchange as in
bind_device. -/
def request_state (props : List (List Nat)) (key : List Nat)
    (recv : Option (List Nat)) : Except NetErr PropMap :=
  match recv with
  | none => .error .timeout
  | some ct =>
    match decrypt_payload ct key with
    | none => .error .decryptionError
    | some p =>
      match jGet p colsB, jGet p datB with
      | some (.arr cols), some (.arr dat) =>
        match strNames cols with
        | some names =>
          if names.length = dat.length then .ok (names.zip dat)
          else .error .protocolError
        | none => .error .protocolError
      | _, _ => .error .protocolError

/-- Modelled from the spec: send_state of the absent network module: after
sending a cmd command built from the given PropertyMap, the acknowledgment is
decrypted and its echoed opt and val lists are zipped by position into the
returned PropertyMap. -/
def send_state (props : PropMap) (key : List Nat)
    (recv : Option (List Nat)) : Except NetErr PropMap :=
  match recv with
  | none => .error .timeout
  | some ct =>
    match decrypt_payload ct key with
    | none => .error .decryptionError
    | some p =>
      match jGet p optB, jGet p valB with
      | some (.arr opts), some (.arr vals) =>
        match strNames opts with
        | some names =>
          if names.length = vals.length then .ok (names.zip vals)
          else .error .protocolError
        | none => .error .protocolError
      | _, _ => .error .protocolError

mutual
/-- Boolean equality of structures, the Python value equality used by the
per property setter of the facade. -/
def beqJ : JVal → JVal → Bool
  | .str s, .str t => s == t
  | .num n, .num m => n == m
  | .arr xs, .arr ys => beqL xs ys
  | .obj kvs, .obj lvs => beqKv kvs lvs
  | _, _ => false
termination_by a b => sizeOf a
decreasing_by all_goals (simp_wf <;> omega)

/-- Boolean equality of element lists. -/
def beqL : List JVal → List JVal → Bool
  | [], [] => true
  | x :: xs, y :: ys => beqJ x y && beqL xs ys
  | _, _ => false
termination_by a b => sizeOf a
decreasing_by all_goals (simp_wf <;> omega)

/-- Boolean equality of member lists. -/
def beqKv : List (List Nat × JVal) → List (List Nat × JVal) → Bool
  | [], [] => true
  | (k1, v1) :: r1, (k2, v2) :: r2 => k1 == k2 && beqJ v1 v2 && beqKv r1 r2
  | _, _ => false
termination_by a b => sizeOf a
decreasing_by all_goals (simp_wf <;> omega)
end

/-- Python equality of an optional cached value against a written value; a
missing value (None) never equals a structure value. -/
def beqOptJ (o : Option JVal) (v : JVal) : Bool :=
  match o with
  | some w => beqJ w v
  | none => false

/-! The device facade, embedded from src/greeclimate/device.py. -/

/-- The closed property vocabulary of the facade.  Modelled from the spec:
the enumeration itself lives in the absent network module; the constructors
follow their uses in device.py, the wire strings are the conventional device
names (their exact values decide nothing below, only their distinctness). -/
inductive Props where
  | POWER
  | MODE
  | TEMP_SET
  | TEMP_UNIT
  | FAN_SPEED
  | FRESH_AIR
  | XFAN
  | ANION
  | SLEEP
  | LIGHT
  | SWING_HORIZ
  | SWING_VERT
  | QUIET
  | TURBO
  | STEADY_HEAT
  | POWER_SAVE
deriving DecidableEq, Repr

/-- The wire string of each property, the value attribute of the Python
enumeration. -/
def Props.value : Props → List Nat
  | .POWER => [80, 111, 119]
  | .MODE => [77, 111, 100]
  | .TEMP_SET => [83, 101, 116, 84, 101, 109]
  | .TEMP_UNIT => [84, 101, 109, 85, 110]
  | .FAN_SPEED => [87, 100, 83, 112, 100]
  | .FRESH_AIR => [65, 105, 114]
  | .XFAN => [66, 108, 111]
  | .ANION => [72, 101, 97, 108, 116, 104]
  | .SLEEP => [83, 119, 104, 83, 108, 112]
  | .LIGHT => [76, 105, 103]
  | .SWING_HORIZ => [83, 119, 105, 110, 103, 76, 102, 82, 105, 103]
  | .SWING_VERT => [83, 119, 85, 112, 68, 110]
  | .QUIET => [81, 117, 105, 101, 116]
  | .TURBO => [84, 117, 114]
  | .STEADY_HEAT => [83, 116, 72, 116]
  | .POWER_SAVE => [83, 118, 83, 116]

/-- Every member of the vocabulary in declaration order, the iteration order
of the Python enumeration in update_state. -/
def Props.all : List Props :=
  [.POWER, .MODE, .TEMP_SET, .TEMP_UNIT, .FAN_SPEED, .FRESH_AIR, .XFAN, .ANION,
   .SLEEP, .LIGHT, .SWING_HORIZ, .SWING_VERT, .QUIET, .TURBO, .STEADY_HEAT,
   .POWER_SAVE]

/-- A record of the network operations a facade call performs, in order;
stored so that theorems can state which exchanges a call did or did not make. -/
inductive NetCall where
  | requestState (props : List (List Nat)) (key : List Nat)
  | sendState (props : PropMap) (key : Option (List Nat))
  | bindDevice

/-- Errors surfaced by facade operations: the not bound error of device.py or
a propagated network error. -/
inductive OpErr where
  | notBound
  | net (e : NetErr)
deriving DecidableEq

/-- The state of the facade of device.py: the session key from binding and
the cached property map.  The logger and the device info are omitted: no
claim depends on them. -/
structure Device where
  device_key : Option (List Nat)
  _properties : Option PropMap

/-- A freshly constructed Device: no key, no cached properties. -/
def Device.init : Device := { device_key := none, _properties := none }

/-- The network path of Device.bind: one bind_device exchange; on success the
obtained key is stored, on failure the error propagates before the
assignment. -/
def Device.bindViaNet (d : Device) (netOut : Except NetErr (List Nat)) :
    Device × List NetCall × Except OpErr Unit :=
  match netOut with
  | .ok k => ({ d with device_key := some k }, [NetCall.bindDevice], .ok ())
  | .error e => (d, [NetCall.bindDevice], .error (.net e))

/-- Embedding of Device.bind of device.py.  The network exchange outcome is a
parameter, consulted only on the path that performs the exchange.  The Python
code takes the stored-key shortcut on the truthiness of the argument, so both
none and the empty key fall through to the network exchange. -/
def Device.bind (d : Device) (key : Option (List Nat))
    (netOut : Except NetErr (List Nat)) :
    Device × List NetCall × Except OpErr Unit :=
  match key with
  | some k =>
    if k.isEmpty then d.bindViaNet netOut
    else ({ d with device_key := some k }, [], .ok ())
  | none => d.bindViaNet netOut

/-- Embedding of Device.update_state of device.py: the bound check is the
Python truthiness test of the key, so both an absent and an empty device key
raise the not bound error before any network access; otherwise one
request_state exchange for the whole known vocabulary replaces the cached
property map, and a network failure propagates before the assignment. -/
def Device.update_state (d : Device) (netOut : Except NetErr PropMap) :
    Device × List NetCall × Except OpErr Unit :=
  match d.device_key with
  | none => (d, [], .error .notBound)
  | some k =>
    if k.isEmpty then (d, [], .error .notBound)
    else
      match netOut with
      | .ok m => ({ d with _properties := some m },
          [NetCall.requestState (Props.all.map Props.value) k], .ok ())
      | .error e => (d, [NetCall.requestState (Props.all.map Props.value) k],
          .error (.net e))

/-- Embedding of Device.get_property of device.py: the cached map is consulted
only when truthy (present and nonempty, Python truthiness of a dict). -/
def Device.get_property (d : Device) (name : Props) : Option JVal :=
  match d._properties with
  | some m => if m.isEmpty then none else lookupKv m name.value
  | none => none

/-- Python dict assignment on the ordered map: replace the entry in place when
the key exists, append otherwise. -/
def setKey (m : PropMap) (k : List Nat) (v : JVal) : PropMap :=
  match m with
  | [] => [(k, v)]
  | (k2, v2) :: rest =>
    if k2 = k then (k, v) :: rest else (k2, v2) :: setKey rest k v

/-- Embedding of Device.set_property of device.py: a falsy cache is replaced
by an empty one, an unchanged value short circuits before any network call,
and otherwise the cache entry is written first and one send_state exchange
follows, keyed with whatever device key the device holds (bound check
absent).  The exchange outcome parameter is consulted only after the cache
mutation, as the Python code ignores the send_state return value and can only
observe its exception. -/
def Device.set_property (d : Device) (name : Props) (v : JVal)
    (sendOut : Except NetErr PropMap) :
    Device × List NetCall × Except OpErr Unit :=
  let m0 : PropMap := d._properties.getD []
  if beqOptJ (lookupKv m0 name.value) v then
    ({ d with _properties := some m0 }, [], .ok ())
  else
    ({ d with _properties := some (setKey m0 name.value v) },
      [NetCall.sendState [(name.value, v)] d.device_key],
      match sendOut with
      | .ok _ => .ok ()
      | .error e => .error (.net e))

/-- Python bool() truthiness on an optional property value. -/
def pyBool : Option JVal → Bool
  | none => false
  | some (.str s) => !s.isEmpty
  | some (.num n) => n != 0
  | some (.arr xs) => !xs.isEmpty
  | some (.obj kvs) => !kvs.isEmpty

/-- Errors the Python int() conversion can raise. -/
inductive PyErr where
  | typeError
  | valueError
deriving DecidableEq, Repr

/-- Decimal value of a digit run, most significant digit first. -/
def digitsVal (s : List Nat) : Nat := s.foldl (fun a c => a * 10 + (c - 48)) 0

/-- Python int() applied to a string byte list: an optional sign then digits. -/
def strToInt : List Nat → Option Int
  | [] => none
  | c :: rest =>
    if c = 45 then
      if rest ≠ [] ∧ rest.all isDigit then some (-(digitsVal rest : Int)) else none
    else if (c :: rest).all isDigit then some ((digitsVal (c :: rest) : Int))
    else none

/-- Python int() on an optional property value: a missing value raises
TypeError, a non numeric string raises ValueError. -/
def pyInt : Option JVal → Except PyErr Int
  | none => .error .typeError
  | some (.num n) => .ok n
  | some (.str s) =>
    match strToInt s with
    | some n => .ok n
    | none => .error .valueError
  | some (.arr _) => .error .typeError
  | some (.obj _) => .error .typeError

/-- The power attribute of device.py. -/
def Device.power (d : Device) : Bool := pyBool (d.get_property .POWER)

/-- The mode attribute of device.py. -/
def Device.mode (d : Device) : Except PyErr Int := pyInt (d.get_property .MODE)

/-- The target_temperature attribute of device.py. -/
def Device.target_temperature (d : Device) : Except PyErr Int :=
  pyInt (d.get_property .TEMP_SET)

/-- The temperature_units attribute of device.py. -/
def Device.temperature_units (d : Device) : Except PyErr Int :=
  pyInt (d.get_property .TEMP_UNIT)

/-- The fan_speed attribute of device.py. -/
def Device.fan_speed (d : Device) : Except PyErr Int :=
  pyInt (d.get_property .FAN_SPEED)

/-- The fresh_air attribute of device.py. -/
def Device.fresh_air (d : Device) : Bool := pyBool (d.get_property .FRESH_AIR)

/-- The xfan attribute of device.py. -/
def Device.xfan (d : Device) : Bool := pyBool (d.get_property .XFAN)

/-- The anion attribute of device.py. -/
def Device.anion (d : Device) : Bool := pyBool (d.get_property .ANION)

/-- The sleep attribute of device.py. -/
def Device.sleep (d : Device) : Bool := pyBool (d.get_property .SLEEP)

/-- The light attribute of device.py. -/
def Device.light (d : Device) : Bool := pyBool (d.get_property .LIGHT)

/-- The horizontal_swing attribute of device.py. -/
def Device.horizontal_swing (d : Device) : Except PyErr Int :=
  pyInt (d.get_property .SWING_HORIZ)

/-- The vertical_swing attribute of device.py. -/
def Device.vertical_swing (d : Device) : Except PyErr Int :=
  pyInt (d.get_property .SWING_VERT)

/-- The quiet attribute of device.py. -/
def Device.quiet (d : Device) : Bool := pyBool (d.get_property .QUIET)

/-- The turbo attribute of device.py. -/
def Device.turbo (d : Device) : Bool := pyBool (d.get_property .TURBO)

/-- The steady_heat attribute of device.py. -/
def Device.steady_heat (d : Device) : Bool := pyBool (d.get_property .STEADY_HEAT)

/-- The power_save attribute of device.py. -/
def Device.power_save (d : Device) : Bool := pyBool (d.get_property .POWER_SAVE)

theorem natDigits_ne_nil (n : Nat) : natDigits n ≠ [] := by
  rw [natDigits]; split <;> simp

theorem natDigits_all_digit (n : Nat) : ∀ c ∈ natDigits n, isDigit c = true := by
  induction n using Nat.strong_induction_on with
  | _ n ih =>
    rw [natDigits]; split
    · intro c hc
      simp only [List.mem_singleton] at hc
      subst hc
      simp only [isDigit, Bool.and_eq_true, decide_eq_true_eq]
      omega
    · intro c hc
      rw [List.mem_append] at hc
      rcases hc with h1 | h2
      · exact ih (n / 10) (by omega) c h1
      · simp only [List.mem_singleton] at h2
        subst h2
        simp only [isDigit, Bool.and_eq_true, decide_eq_true_eq]
        omega

theorem natDigits_cons (n : Nat) :
    ∃ d ds, natDigits n = d :: ds ∧ isDigit d = true := by
  cases hD : natDigits n with
  | nil => exact absurd hD (natDigits_ne_nil n)
  | cons d ds =>
    exact ⟨d, ds, rfl, natDigits_all_digit n d (hD ▸ List.mem_cons_self d ds)⟩

theorem parseStr_render (s r : List Nat) (h : s.all strOk = true) :
    parseStr (s ++ 34 :: r) = some (s, r) := by
  induction s with
  | nil => simp [parseStr]
  | cons c cs ih =>
    rw [List.all_cons, Bool.and_eq_true] at h
    have hc34 : c ≠ 34 := by
      intro hh; subst hh; simp [strOk] at h
    simp [parseStr, hc34, h.1, ih h.2]

theorem parseDigitsAux_stop (acc : Nat) (r : List Nat) (h : headNonDigit r = true) :
    parseDigitsAux acc r = (acc, r) := by
  cases r with
  | nil => rfl
  | cons c rest =>
    simp only [headNonDigit, Bool.not_eq_true'] at h
    simp [parseDigitsAux, h]

theorem parseDigitsAux_digits (n : Nat) : ∀ acc r,
    parseDigitsAux acc (natDigits n ++ r) =
      parseDigitsAux (acc * 10 ^ (natDigits n).length + n) r := by
  induction n using Nat.strong_induction_on with
  | _ n ih =>
    intro acc r
    rw [natDigits]
    split
    · rename_i h
      have hd : isDigit (48 + n) = true := by
        simp only [isDigit, Bool.and_eq_true, decide_eq_true_eq]; omega
      simp only [List.cons_append, List.nil_append, parseDigitsAux, hd, if_pos,
        List.length_singleton, pow_one]
      have : acc * 10 + (48 + n - 48) = acc * 10 + n := by omega
      rw [this]
      rfl
    · rename_i h
      rw [List.append_assoc, ih (n / 10) (by omega), List.singleton_append]
      have hd : isDigit (48 + n % 10) = true := by
        simp only [isDigit, Bool.and_eq_true, decide_eq_true_eq]; omega
      simp only [parseDigitsAux, hd, if_pos, List.length_append,
        List.length_singleton]
      have heq : (acc * 10 ^ (natDigits (n / 10)).length + n / 10) * 10 +
          (48 + n % 10 - 48) = acc * 10 ^ ((natDigits (n / 10)).length + 1) + n := by
        have h1 : 48 + n % 10 - 48 = n % 10 := by omega
        rw [h1, pow_succ]
        have h2 : n / 10 * 10 + n % 10 = n := by omega
        calc (acc * 10 ^ (natDigits (n / 10)).length + n / 10) * 10 + n % 10
            = acc * (10 ^ (natDigits (n / 10)).length * 10) +
              (n / 10 * 10 + n % 10) := by ring
          _ = acc * (10 ^ (natDigits (n / 10)).length * 10) + n := by rw [h2]
      rw [heq]

theorem parseDigitsAux_value (n : Nat) (r : List Nat) (h : headNonDigit r = true) :
    parseDigitsAux 0 (natDigits n ++ r) = (n, r) := by
  rw [parseDigitsAux_digits, parseDigitsAux_stop _ _ h, Nat.zero_mul, Nat.zero_add]

theorem renderJ_head (v : JVal) :
    ∃ c cs, renderJ v = c :: cs ∧
      (c = 34 ∨ c = 45 ∨ isDigit c = true ∨ c = 91 ∨ c = 123) := by
  cases v with
  | str s => exact ⟨34, s ++ [34], by rw [renderJ]; rfl, Or.inl rfl⟩
  | num n =>
    rw [renderJ, renderInt]
    split
    · exact ⟨45, natDigits n.natAbs, rfl, Or.inr (Or.inl rfl)⟩
    · obtain ⟨d, ds, hD, hdig⟩ := natDigits_cons n.toNat
      exact ⟨d, ds, hD, Or.inr (Or.inr (Or.inl hdig))⟩
  | arr xs =>
    cases xs with
    | nil => exact ⟨91, [93], by rw [renderJ], Or.inr (Or.inr (Or.inr (Or.inl rfl)))⟩
    | cons x xs =>
      exact ⟨91, renderElems x xs, by rw [renderJ],
        Or.inr (Or.inr (Or.inr (Or.inl rfl)))⟩
  | obj kvs =>
    cases kvs with
    | nil => exact ⟨123, [125], by rw [renderJ], Or.inr (Or.inr (Or.inr (Or.inr rfl)))⟩
    | cons kv kvs =>
      exact ⟨123, renderMembs kv kvs, by rw [renderJ],
        Or.inr (Or.inr (Or.inr (Or.inr rfl)))⟩

theorem renderElems_head (x : JVal) (xs : List JVal) :
    ∃ c cs, renderElems x xs = c :: cs ∧ c ≠ 93 := by
  obtain ⟨c, cs, hD, hc⟩ := renderJ_head x
  have hne : c ≠ 93 := by
    rcases hc with h | h | h | h | h
    · omega
    · omega
    · simp only [isDigit, Bool.and_eq_true, decide_eq_true_eq] at h; omega
    · omega
    · omega
  cases xs with
  | nil => exact ⟨c, cs ++ [93], by rw [renderElems, hD, List.cons_append], hne⟩
  | cons y ys =>
    exact ⟨c, cs ++ 44 :: renderElems y ys, by rw [renderElems, hD, List.cons_append], hne⟩

theorem needJ_pos (v : JVal) : 1 ≤ needJ v := by
  cases v with
  | str s => rw [needJ]
  | num n => rw [needJ]
  | arr xs => cases xs <;> rw [needJ] <;> omega
  | obj kvs => cases kvs <;> rw [needJ] <;> omega

theorem needElems_pos (x : JVal) (xs : List JVal) : 1 ≤ needElems x xs := by
  cases xs <;> rw [needElems] <;> omega

theorem needMembs_pos (kv : List Nat × JVal) (kvs : List (List Nat × JVal)) :
    1 ≤ needMembs kv kvs := by
  obtain ⟨k, v⟩ := kv
  cases kvs <;> rw [needMembs] <;> omega

theorem headNonDigit_cons (c : Nat) (r : List Nat) (h : isDigit c = false) :
    headNonDigit (c :: r) = true := by
  simp [headNonDigit, h]

theorem renderMembs_cons (k : List Nat) (v : JVal) (kvs : List (List Nat × JVal)) :
    ∃ cs, renderMembs (k, v) kvs = 34 :: cs := by
  cases kvs with
  | nil =>
    exact ⟨k ++ 34 :: 58 :: renderJ v ++ [125], by rw [renderMembs]; simp⟩
  | cons kv kvs =>
    exact ⟨k ++ 34 :: 58 :: renderJ v ++ 44 :: renderMembs kv kvs,
      by rw [renderMembs]; simp⟩

/-- Parsing is a left inverse of rendering on valid structures, given enough
fuel and a continuation that does not start with a digit.  Stated for all three
mutual parsers at once and proved by strong induction on structure size. -/
theorem parse_render_all : ∀ N : Nat,
    (∀ v : JVal, sizeOf v ≤ N → validJ v = true → ∀ fuel r, needJ v ≤ fuel →
      headNonDigit r = true → parseV fuel (renderJ v ++ r) = some (v, r)) ∧
    (∀ (x : JVal) (xs : List JVal), sizeOf x + sizeOf xs ≤ N → validJ x = true →
      validElems xs = true → ∀ fuel r, needElems x xs ≤ fuel →
      headNonDigit r = true →
      parseElems fuel (renderElems x xs ++ r) = some (x :: xs, r)) ∧
    (∀ (k : List Nat) (v : JVal) (kvs : List (List Nat × JVal)),
      sizeOf v + sizeOf kvs ≤ N → k.all strOk = true → validJ v = true →
      validMembs kvs = true → ∀ fuel r, needMembs (k, v) kvs ≤ fuel →
      headNonDigit r = true →
      parseMembs fuel (renderMembs (k, v) kvs ++ r) = some ((k, v) :: kvs, r)) := by
  intro N
  induction N using Nat.strong_induction_on with
  | _ N ih =>
    refine ⟨?_, ?_, ?_⟩
    · -- parseV inverts renderJ
      intro v hsz hval fuel r hfuel hr
      cases fuel with
      | zero => exact absurd hfuel (by have := needJ_pos v; omega)
      | succ f =>
        cases v with
        | str s =>
          rw [validJ] at hval
          rw [renderJ]
          simp only [List.cons_append, List.append_assoc, List.singleton_append]
          simp [parseV, parseStr_render s r hval]
        | num n =>
          rw [renderJ, renderInt]
          by_cases hneg : n < 0
          · rw [if_pos hneg]
            obtain ⟨d, ds, hD, hdig⟩ := natDigits_cons n.natAbs
            have hpd : parseDigitsAux 0 (natDigits n.natAbs ++ r) = (n.natAbs, r) :=
              parseDigitsAux_value _ _ hr
            rw [hD] at hpd ⊢
            simp only [List.cons_append] at hpd ⊢
            simp [parseV, hdig, hpd]
            rw [abs_of_neg hneg, neg_neg]
          · rw [if_neg hneg]
            obtain ⟨d, ds, hD, hdig⟩ := natDigits_cons n.toNat
            have hdb : 48 ≤ d ∧ d ≤ 57 := by
              simpa [isDigit] using hdig
            have hpd : parseDigitsAux 0 (natDigits n.toNat ++ r) = (n.toNat, r) :=
              parseDigitsAux_value _ _ hr
            have hcast : ((n.toNat : Int)) = n := by omega
            rw [hD] at hpd ⊢
            simp only [List.cons_append] at hpd ⊢
            have h34 : d ≠ 34 := by omega
            have h45 : d ≠ 45 := by omega
            simp [parseV, h34, h45, hdig, hpd, hcast]
        | arr xs =>
          cases xs with
          | nil =>
            rw [renderJ]
            simp [parseV, isDigit]
          | cons x xs =>
            rw [renderJ]
            rw [needJ] at hfuel
            rw [validJ, validElems, Bool.and_eq_true] at hval
            simp only [JVal.arr.sizeOf_spec, List.cons.sizeOf_spec] at hsz
            have hx : 1 ≤ sizeOf x := by cases x <;> simp <;> omega
            have hm : N - 1 < N := by omega
            obtain ⟨c2, cs, hE, hc93⟩ := renderElems_head x xs
            have hIH := ((ih (N - 1) hm).2.1) x xs (by omega) hval.1 hval.2
              f r (by omega) hr
            rw [hE] at hIH ⊢
            simp only [List.cons_append] at hIH ⊢
            simp [parseV, isDigit, hc93, hIH]
        | obj kvs =>
          cases kvs with
          | nil =>
            rw [renderJ]
            simp [parseV, isDigit]
          | cons kv kvs =>
            obtain ⟨k, v⟩ := kv
            rw [renderJ]
            rw [needJ] at hfuel
            rw [validJ, validMembs] at hval
            simp only [Bool.and_eq_true] at hval
            simp only [JVal.obj.sizeOf_spec, List.cons.sizeOf_spec,
              Prod.mk.sizeOf_spec] at hsz
            have hv1 : 1 ≤ sizeOf v := by cases v <;> simp <;> omega
            have hm : N - 1 < N := by omega
            obtain ⟨cs, hM⟩ := renderMembs_cons k v kvs
            have hIH := ((ih (N - 1) hm).2.2) k v kvs (by omega)
              hval.1.1 hval.1.2 hval.2 f r (by omega) hr
            rw [hM] at hIH ⊢
            simp only [List.cons_append] at hIH ⊢
            simp [parseV, isDigit, hIH]
    · -- parseElems inverts renderElems
      intro x xs hsz hvx hvxs fuel r hfuel hr
      cases fuel with
      | zero => exact absurd hfuel (by have := needElems_pos x xs; omega)
      | succ f =>
        have hx1 : 1 ≤ sizeOf x := by cases x <;> simp <;> omega
        cases xs with
        | nil =>
          rw [renderElems]
          rw [needElems] at hfuel
          simp only [List.nil.sizeOf_spec] at hsz
          have hm : N - 1 < N := by omega
          have hIH := ((ih (N - 1) hm).1) x (by omega) hvx f (93 :: r)
            (by omega) (headNonDigit_cons 93 r (by decide))
          rw [List.append_assoc, List.singleton_append]
          simp [parseElems, hIH]
        | cons y ys =>
          rw [renderElems]
          rw [needElems] at hfuel
          rw [validElems, Bool.and_eq_true] at hvxs
          simp only [List.cons.sizeOf_spec] at hsz
          have hm : N - 1 < N := by omega
          have hIHx := ((ih (N - 1) hm).1) x (by omega) hvx f
            (44 :: (renderElems y ys ++ r)) (by omega)
            (headNonDigit_cons 44 _ (by decide))
          have hIHrest := ((ih (N - 1) hm).2.1) y ys (by omega)
            hvxs.1 hvxs.2 f r (by omega) hr
          rw [List.append_assoc, List.cons_append]
          simp [parseElems, hIHx, hIHrest]
    · -- parseMembs inverts renderMembs
      intro k v kvs hsz hk hv hkvs fuel r hfuel hr
      cases fuel with
      | zero => exact absurd hfuel (by have := needMembs_pos (k, v) kvs; omega)
      | succ f =>
        have hv1 : 1 ≤ sizeOf v := by cases v <;> simp <;> omega
        cases kvs with
        | nil =>
          rw [renderMembs]
          rw [needMembs] at hfuel
          simp only [List.nil.sizeOf_spec] at hsz
          have hm : N - 1 < N := by omega
          have hIH := ((ih (N - 1) hm).1) v (by omega) hv f (125 :: r)
            (by omega) (headNonDigit_cons 125 r (by decide))
          simp only [List.cons_append, List.append_assoc, List.singleton_append]
          simp [parseMembs, parseStr_render k _ hk, hIH]
        | cons kv2 kvs2 =>
          obtain ⟨k2, v2⟩ := kv2
          rw [renderMembs]
          rw [needMembs] at hfuel
          rw [validMembs] at hkvs
          simp only [Bool.and_eq_true] at hkvs
          simp only [List.cons.sizeOf_spec, Prod.mk.sizeOf_spec] at hsz
          have hm : N - 1 < N := by omega
          have hIHv := ((ih (N - 1) hm).1) v (by omega) hv f
            (44 :: (renderMembs (k2, v2) kvs2 ++ r)) (by omega)
            (headNonDigit_cons 44 _ (by decide))
          have hIHrest := ((ih (N - 1) hm).2.2) k2 v2 kvs2 (by omega)
            hkvs.1.1 hkvs.1.2 hkvs.2 f r (by omega) hr
          simp only [List.cons_append, List.append_assoc]
          simp [parseMembs, parseStr_render k _ hk, hIHv, hIHrest]

theorem pkcs7unpad_pad (bs : List Nat) : pkcs7unpad (pkcs7pad bs) = some bs := by
  have hm : bs.length % 16 < 16 := Nat.mod_lt _ (by omega)
  set r := 16 - bs.length % 16 with hrdef
  have hr1 : 1 ≤ r := by omega
  have hr16 : r ≤ 16 := by omega
  obtain ⟨m, hmr⟩ : ∃ m, r = m + 1 := ⟨r - 1, by omega⟩
  have hP : pkcs7pad bs = bs ++ List.replicate r r := by rw [pkcs7pad, ← hrdef]
  have hlen : (pkcs7pad bs).length = bs.length + r := by rw [hP]; simp
  have hPrev : (pkcs7pad bs).reverse = r :: (List.replicate m r ++ bs.reverse) := by
    rw [hP, List.reverse_append, List.reverse_replicate, hmr, List.replicate_succ,
      List.cons_append, ← hmr]
  have htake : (pkcs7pad bs).reverse.take r = List.replicate r r := by
    rw [hP, List.reverse_append, List.reverse_replicate]
    exact List.take_left' (by simp)
  rw [pkcs7unpad, hPrev]
  show pkcs7unpadAux (pkcs7pad bs) r = some bs
  rw [pkcs7unpadAux]
  have hcond : ¬(r = 0 ∨ 16 < r ∨ (pkcs7pad bs).length < r) := by rw [hlen]; omega
  rw [if_neg hcond, htake]
  have hall : (List.replicate r r).all (fun c => c = r) = true := by
    simp [List.all_eq_true, List.mem_replicate]
  rw [if_pos hall, hlen]
  have hidx : bs.length + r - r = bs.length := by omega
  rw [hidx, hP, List.take_left]

theorem ksByte_lt (key : List Nat) (i : Nat) : ksByte key i < 256 :=
  Nat.mod_lt _ (by omega)

theorem ecbDecryptFrom_encryptFrom (key : List Nat) :
    ∀ (bs : List Nat) (i : Nat), (∀ b ∈ bs, b < 256) →
      ecbDecryptFrom key i (ecbEncryptFrom key i bs) = bs := by
  intro bs
  induction bs with
  | nil => intro i _; rfl
  | cons b rest ih =>
    intro i h
    rw [ecbEncryptFrom, ecbDecryptFrom]
    have hb : b < 256 := h b (List.mem_cons_self b rest)
    have hk := ksByte_lt key i
    have hbyte : ((b + ksByte key i) % 256 + 256 - ksByte key i) % 256 = b := by
      omega
    rw [hbyte, ih (i + 1) (fun x hx => h x (List.mem_cons_of_mem b hx))]

theorem ecbEncryptFrom_length (key : List Nat) :
    ∀ (bs : List Nat) (i : Nat), (ecbEncryptFrom key i bs).length = bs.length := by
  intro bs
  induction bs with
  | nil => intro i; rfl
  | cons b rest ih => intro i; rw [ecbEncryptFrom]; simp [ih]

theorem ecbEncryptFrom_lt (key : List Nat) :
    ∀ (bs : List Nat) (i : Nat), ∀ b ∈ ecbEncryptFrom key i bs, b < 256 := by
  intro bs
  induction bs with
  | nil => intro i b hb; simp [ecbEncryptFrom] at hb
  | cons c rest ih =>
    intro i b hb
    rw [ecbEncryptFrom] at hb
    rcases List.mem_cons.mp hb with h | h
    · subst h; exact Nat.mod_lt _ (by omega)
    · exact ih (i + 1) b h

theorem b64inv_chr : ∀ s, s < 64 → b64inv (b64chr s) = some s := by decide

theorem b64chr_ne_eq : ∀ s, s < 64 → b64chr s ≠ 61 := by decide

theorem b64decode_encode : ∀ bs : List Nat, (∀ b ∈ bs, b < 256) →
    b64decode (b64encode bs) = some bs := by
  intro bs
  induction bs using b64encode.induct with
  | case1 a b c rest ih =>
    intro h
    have ha : a < 256 := h a (by simp)
    have hb : b < 256 := h b (by simp)
    have hc : c < 256 := h c (by simp)
    have hne2 : b64chr (b % 16 * 4 + c / 64) ≠ 61 := b64chr_ne_eq _ (by omega)
    have hne3 : b64chr (c % 64) ≠ 61 := b64chr_ne_eq _ (by omega)
    have hih := ih (fun x hx => h x (by simp [hx]))
    rw [b64encode, b64decode]
    rw [b64inv_chr _ (by omega), b64inv_chr _ (by omega), b64inv_chr _ (by omega),
      b64inv_chr _ (by omega)]
    simp only [hne2, hne3, if_false, hih, Option.map_some]
    refine congrArg some ?_
    have e1 : a / 4 * 4 + (a % 4 * 16 + b / 16) / 16 = a := by omega
    have e2 : (a % 4 * 16 + b / 16) % 16 * 16 + (b % 16 * 4 + c / 64) / 4 = b := by
      omega
    have e3 : (b % 16 * 4 + c / 64) % 4 * 64 + c % 64 = c := by omega
    rw [e1, e2, e3]
  | case2 a b =>
    intro h
    have ha : a < 256 := h a (by simp)
    have hb : b < 256 := h b (by simp)
    have hne2 : b64chr (b % 16 * 4) ≠ 61 := b64chr_ne_eq _ (by omega)
    rw [b64encode, b64decode]
    rw [b64inv_chr _ (by omega), b64inv_chr _ (by omega), b64inv_chr _ (by omega)]
    simp only [hne2, if_false, if_pos, and_self, if_true]
    have e1 : a / 4 * 4 + (a % 4 * 16 + b / 16) / 16 = a := by omega
    simp [e1]
    omega
  | case3 a =>
    intro h
    have ha : a < 256 := h a (by simp)
    rw [b64encode, b64decode]
    rw [b64inv_chr _ (by omega), b64inv_chr _ (by omega)]
    simp
    omega
  | case4 =>
    intro _
    rfl

theorem natDigits_lt (n : Nat) : ∀ c ∈ natDigits n, c < 256 := by
  intro c hc
  have := natDigits_all_digit n c hc
  simp only [isDigit, Bool.and_eq_true, decide_eq_true_eq] at this
  omega

theorem renderInt_lt (n : Int) : ∀ c ∈ renderInt n, c < 256 := by
  rw [renderInt]
  split
  · intro c hc
    rcases List.mem_cons.mp hc with h | h
    · omega
    · exact natDigits_lt _ c h
  · exact natDigits_lt _

theorem renderInt_ne_nil (n : Int) : renderInt n ≠ [] := by
  rw [renderInt]
  split
  · simp
  · exact natDigits_ne_nil _

/-- All bytes of the rendering of a valid structure are below 256, so the
byte cipher round trips on them. -/
theorem render_lt_all : ∀ N : Nat,
    (∀ v : JVal, sizeOf v ≤ N → validJ v = true → ∀ c ∈ renderJ v, c < 256) ∧
    (∀ (x : JVal) (xs : List JVal), sizeOf x + sizeOf xs ≤ N → validJ x = true →
      validElems xs = true → ∀ c ∈ renderElems x xs, c < 256) ∧
    (∀ (k : List Nat) (v : JVal) (kvs : List (List Nat × JVal)),
      sizeOf v + sizeOf kvs ≤ N → k.all strOk = true → validJ v = true →
      validMembs kvs = true → ∀ c ∈ renderMembs (k, v) kvs, c < 256) := by
  intro N
  induction N using Nat.strong_induction_on with
  | _ N ih =>
    refine ⟨?_, ?_, ?_⟩
    · intro v hsz hval c hc
      cases v with
      | str s =>
        rw [renderJ] at hc
        rw [validJ] at hval
        rw [List.all_eq_true] at hval
        rcases List.mem_cons.mp hc with h | h
        · omega
        · rcases List.mem_append.mp h with h2 | h2
          · have := hval c h2
            simp only [strOk, Bool.and_eq_true, decide_eq_true_eq] at this
            omega
          · simp only [List.mem_singleton] at h2; omega
      | num n =>
        rw [renderJ] at hc
        exact renderInt_lt n c hc
      | arr xs =>
        cases xs with
        | nil =>
          rw [renderJ] at hc
          simp at hc
          omega
        | cons x xs =>
          rw [renderJ] at hc
          rw [validJ, validElems, Bool.and_eq_true] at hval
          simp only [JVal.arr.sizeOf_spec, List.cons.sizeOf_spec] at hsz
          rcases List.mem_cons.mp hc with h | h
          · omega
          · exact ((ih (N - 1) (by omega)).2.1) x xs (by omega) hval.1 hval.2 c h
      | obj kvs =>
        cases kvs with
        | nil =>
          rw [renderJ] at hc
          simp at hc
          omega
        | cons kv kvs =>
          obtain ⟨k, v⟩ := kv
          rw [renderJ] at hc
          rw [validJ, validMembs] at hval
          simp only [Bool.and_eq_true] at hval
          simp only [JVal.obj.sizeOf_spec, List.cons.sizeOf_spec,
            Prod.mk.sizeOf_spec] at hsz
          rcases List.mem_cons.mp hc with h | h
          · omega
          · exact ((ih (N - 1) (by omega)).2.2) k v kvs (by omega) hval.1.1
              hval.1.2 hval.2 c h
    · intro x xs hsz hvx hvxs c hc
      have hx1 : 1 ≤ sizeOf x := by cases x <;> simp <;> omega
      cases xs with
      | nil =>
        rw [renderElems] at hc
        simp only [List.nil.sizeOf_spec] at hsz
        rcases List.mem_append.mp hc with h | h
        · exact ((ih (N - 1) (by omega)).1) x (by omega) hvx c h
        · simp only [List.mem_singleton] at h; omega
      | cons y ys =>
        rw [renderElems] at hc
        rw [validElems, Bool.and_eq_true] at hvxs
        simp only [List.cons.sizeOf_spec] at hsz
        rcases List.mem_append.mp hc with h | h
        · exact ((ih (N - 1) (by omega)).1) x (by omega) hvx c h
        · rcases List.mem_cons.mp h with h2 | h2
          · omega
          · exact ((ih (N - 1) (by omega)).2.1) y ys (by omega) hvxs.1 hvxs.2 c h2
    · intro k v kvs hsz hk hv hkvs c hc
      have hv1 : 1 ≤ sizeOf v := by cases v <;> simp <;> omega
      have hkmem : ∀ c2 ∈ k, c2 < 256 := by
        intro c2 h2
        rw [List.all_eq_true] at hk
        have := hk c2 h2
        simp only [strOk, Bool.and_eq_true, decide_eq_true_eq] at this
        omega
      cases kvs with
      | nil =>
        rw [renderMembs] at hc
        simp only [List.nil.sizeOf_spec] at hsz
        simp only [List.cons_append, List.append_assoc, List.singleton_append,
          List.mem_cons, List.mem_append, List.mem_singleton, List.not_mem_nil,
          or_false] at hc
        rcases hc with h | h | h | h | h | h
        · omega
        · exact hkmem c h
        · omega
        · omega
        · exact ((ih (N - 1) (by omega)).1) v (by omega) hv c h
        · omega
      | cons kv2 kvs2 =>
        obtain ⟨k2, v2⟩ := kv2
        rw [renderMembs] at hc
        rw [validMembs] at hkvs
        simp only [Bool.and_eq_true] at hkvs
        simp only [List.cons.sizeOf_spec, Prod.mk.sizeOf_spec] at hsz
        simp only [List.cons_append, List.append_assoc, List.singleton_append,
          List.mem_cons, List.mem_append, List.mem_singleton, List.not_mem_nil,
          or_false] at hc
        rcases hc with h | h | h | h | h | h | h
        · omega
        · exact hkmem c h
        · omega
        · omega
        · exact ((ih (N - 1) (by omega)).1) v (by omega) hv c h
        · omega
        · exact ((ih (N - 1) (by omega)).2.2) k2 v2 kvs2 (by omega)
            hkvs.1.1 hkvs.1.2 hkvs.2 c h

/-- The fuel bound is below the length of the rendering, so the length of the
recovered text always suffices as parser fuel. -/
theorem needJ_le_all : ∀ N : Nat,
    (∀ v : JVal, sizeOf v ≤ N → needJ v ≤ (renderJ v).length) ∧
    (∀ (x : JVal) (xs : List JVal), sizeOf x + sizeOf xs ≤ N →
      needElems x xs ≤ (renderElems x xs).length) ∧
    (∀ (k : List Nat) (v : JVal) (kvs : List (List Nat × JVal)),
      sizeOf v + sizeOf kvs ≤ N →
      needMembs (k, v) kvs ≤ (renderMembs (k, v) kvs).length) := by
  intro N
  induction N using Nat.strong_induction_on with
  | _ N ih =>
    refine ⟨?_, ?_, ?_⟩
    · intro v hsz
      cases v with
      | str s => rw [renderJ, needJ]; simp
      | num n =>
        rw [renderJ, needJ]
        have := renderInt_ne_nil n
        have : 0 < (renderInt n).length := List.length_pos.mpr this
        omega
      | arr xs =>
        cases xs with
        | nil => rw [renderJ, needJ]; simp
        | cons x xs =>
          rw [renderJ, needJ]
          simp only [JVal.arr.sizeOf_spec, List.cons.sizeOf_spec] at hsz
          have hx1 : 1 ≤ sizeOf x := by cases x <;> simp <;> omega
          have := ((ih (N - 1) (by omega)).2.1) x xs (by omega)
          simp only [List.length_cons]
          omega
      | obj kvs =>
        cases kvs with
        | nil => rw [renderJ, needJ]; simp
        | cons kv kvs =>
          obtain ⟨k, v⟩ := kv
          rw [renderJ, needJ]
          simp only [JVal.obj.sizeOf_spec, List.cons.sizeOf_spec,
            Prod.mk.sizeOf_spec] at hsz
          have hv1 : 1 ≤ sizeOf v := by cases v <;> simp <;> omega
          have := ((ih (N - 1) (by omega)).2.2) k v kvs (by omega)
          simp only [List.length_cons]
          omega
    · intro x xs hsz
      have hx1 : 1 ≤ sizeOf x := by cases x <;> simp <;> omega
      cases xs with
      | nil =>
        rw [renderElems, needElems]
        simp only [List.nil.sizeOf_spec] at hsz
        have := ((ih (N - 1) (by omega)).1) x (by omega)
        simp only [List.length_append, List.length_singleton]
        omega
      | cons y ys =>
        rw [renderElems, needElems]
        simp only [List.cons.sizeOf_spec] at hsz
        have h1 := ((ih (N - 1) (by omega)).1) x (by omega)
        have h2 := ((ih (N - 1) (by omega)).2.1) y ys (by omega)
        simp only [List.length_append, List.length_cons]
        omega
    · intro k v kvs hsz
      have hv1 : 1 ≤ sizeOf v := by cases v <;> simp <;> omega
      cases kvs with
      | nil =>
        rw [renderMembs, needMembs]
        simp only [List.nil.sizeOf_spec] at hsz
        have := ((ih (N - 1) (by omega)).1) v (by omega)
        simp only [List.length_cons, List.length_append, List.length_singleton]
        omega
      | cons kv2 kvs2 =>
        obtain ⟨k2, v2⟩ := kv2
        rw [renderMembs, needMembs]
        simp only [List.cons.sizeOf_spec, Prod.mk.sizeOf_spec] at hsz
        have h1 := ((ih (N - 1) (by omega)).1) v (by omega)
        have h2 := ((ih (N - 1) (by omega)).2.2) k2 v2 kvs2 (by omega)
        simp only [List.length_cons, List.length_append]
        omega

/-- The codec round trip at the byte level. -/
theorem decrypt_bytes_encrypt (p : JVal) (key : List Nat) (h : validJ p = true) :
    decrypt_bytes (encrypt_payload p key) key = some (renderJ p) := by
  have hrlt : ∀ c ∈ renderJ p, c < 256 := (render_lt_all (sizeOf p)).1 p le_rfl h
  have hplt : ∀ c ∈ pkcs7pad (renderJ p), c < 256 := by
    intro c hc
    rw [pkcs7pad] at hc
    rcases List.mem_append.mp hc with h1 | h1
    · exact hrlt c h1
    · have := (List.mem_replicate.mp h1).2
      omega
  have hclt : ∀ c ∈ ecbEncrypt key (pkcs7pad (renderJ p)), c < 256 :=
    fun c hc => ecbEncryptFrom_lt key _ 0 c hc
  rw [encrypt_payload, decrypt_bytes, b64decode_encode _ hclt, Option.some_bind]
  have hlenc : (ecbEncrypt key (pkcs7pad (renderJ p))).length =
      (pkcs7pad (renderJ p)).length := ecbEncryptFrom_length key _ 0
  have hlpad : (pkcs7pad (renderJ p)).length =
      (renderJ p).length + (16 - (renderJ p).length % 16) := by
    rw [pkcs7pad]; simp
  rw [if_pos (by rw [hlenc, hlpad]; omega)]
  rw [show ecbDecrypt key (ecbEncrypt key (pkcs7pad (renderJ p))) =
      pkcs7pad (renderJ p) from
    ecbDecryptFrom_encryptFrom key (pkcs7pad (renderJ p)) 0 hplt]
  exact pkcs7unpad_pad _

/-- The codec round trip: decrypt is a left inverse of encrypt on valid
structures, for every key. -/
theorem decrypt_encrypt_payload (p : JVal) (key : List Nat) (h : validJ p = true) :
    decrypt_payload (encrypt_payload p key) key = some p := by
  rw [decrypt_payload, decrypt_bytes_encrypt p key h, Option.some_bind, parse_text]
  have hfuel : needJ p ≤ (renderJ p).length + 1 :=
    le_trans ((needJ_le_all (sizeOf p)).1 p le_rfl) (by omega)
  have hparse := (parse_render_all (sizeOf p)).1 p le_rfl h
    ((renderJ p).length + 1) [] hfuel (by decide)
  rw [List.append_nil] at hparse
  rw [hparse, Option.some_bind, if_pos rfl]

/-- Claim C1: for every valid plaintext structure P and key K, decrypting the
result of encrypting P with K yields P again; encryption followed by
decryption with the same key is the identity on valid payload structures. -/
theorem claim_C1_codec_roundtrip (P : JVal) (K : List Nat) (h : validJ P = true) :
    decrypt_payload (encrypt_payload P K) K = some P :=
  decrypt_encrypt_payload P K h

/-- Witness for claim C1 at the payload of the repository codec test and the
generic key. -/
theorem claim_C1_witness :
    validJ (JVal.obj [(fakeKeyB, JVal.str fakeValB)]) = true ∧
    decrypt_payload
      (encrypt_payload (JVal.obj [(fakeKeyB, JVal.str fakeValB)]) generic_key)
      generic_key = some (JVal.obj [(fakeKeyB, JVal.str fakeValB)]) := by
  have hval : validJ (JVal.obj [(fakeKeyB, JVal.str fakeValB)]) = true := by
    simp only [validJ, validMembs]
    decide
  exact ⟨hval, claim_C1_codec_roundtrip _ generic_key hval⟩

/-- Claim C2: bind with no key supplied returns exactly the key carried in the
bindok response of the responder, for every key of string safe bytes; and with
no response arriving in the window it fails with the timeout error instead of
returning. -/
theorem claim_C2_bind (k : List Nat) (hk : k.all strOk = true) :
    bind_device (some (encrypt_payload
      (JVal.obj [(tB, JVal.str bindokB), (keyB, JVal.str k)]) generic_key)) =
      .ok k ∧
    bind_device none = .error .timeout := by
  constructor
  · have hval : validJ (JVal.obj [(tB, JVal.str bindokB), (keyB, JVal.str k)]) = true := by
      simp only [validJ, validMembs, hk]
      decide
    rw [bind_device]
    simp only [decrypt_encrypt_payload _ _ hval]
    simp [jGet, lookupKv, tB, keyB, bindokB]
  · rfl

/-- Witness for claim C2 at the bindok fixture of the repository tests, whose
responder carries the key acbd1234. -/
theorem claim_C2_witness :
    acbdB.all strOk = true ∧
    bind_device (some (encrypt_payload
      (JVal.obj [(tB, JVal.str bindokB), (keyB, JVal.str acbdB)]) generic_key)) =
      .ok acbdB :=
  ⟨by decide, (claim_C2_bind acbdB (by decide)).1⟩

theorem strNames_map_str (ns : List (List Nat)) :
    strNames (ns.map JVal.str) = some ns := by
  induction ns with
  | nil => rfl
  | cons s rest ih => simp [strNames, ih]

theorem validElems_map_str (ns : List (List Nat))
    (h : ns.all (fun s => s.all strOk) = true) :
    validElems (ns.map JVal.str) = true := by
  induction ns with
  | nil => rw [List.map_nil, validElems]
  | cons s rest ih =>
    rw [List.all_cons, Bool.and_eq_true] at h
    simp only [List.map_cons, validElems, validJ]
    simp [h.1, ih h.2]

theorem validElems_map_snd (m : PropMap)
    (h : m.all (fun kv => kv.1.all strOk && validJ kv.2) = true) :
    validElems (m.map Prod.snd) = true := by
  induction m with
  | nil => rw [List.map_nil, validElems]
  | cons kv rest ih =>
    simp only [List.all_cons, Bool.and_eq_true] at h
    simp only [List.map_cons, validElems]
    simp [h.1.2, ih h.2]

theorem all_keys_strOk (m : PropMap)
    (h : m.all (fun kv => kv.1.all strOk && validJ kv.2) = true) :
    (m.map Prod.fst).all (fun s => s.all strOk) = true := by
  induction m with
  | nil => rfl
  | cons kv rest ih =>
    simp only [List.all_cons, Bool.and_eq_true] at h
    simp [h.1.1, ih h.2]

theorem zip_fst_snd (m : PropMap) : (m.map Prod.fst).zip (m.map Prod.snd) = m := by
  induction m with
  | nil => rfl
  | cons kv rest ih => simp [ih]

/-- Claim C3: request_state returns the PropertyMap obtained by zipping, by
position, the cols name list of the response with its dat value list, and it
fails with a protocol error whenever the two lists differ in length or the
response shape is wrong. -/
theorem claim_C3_request_state
    (props names : List (List Nat)) (vals : List JVal) (key : List Nat)
    (hn : names.all (fun s => s.all strOk) = true)
    (hv : validElems vals = true) :
    (names.length = vals.length →
      request_state props key (some (encrypt_payload
        (JVal.obj [(colsB, JVal.arr (names.map JVal.str)),
          (datB, JVal.arr vals)]) key)) = .ok (names.zip vals)) ∧
    (names.length ≠ vals.length →
      request_state props key (some (encrypt_payload
        (JVal.obj [(colsB, JVal.arr (names.map JVal.str)),
          (datB, JVal.arr vals)]) key)) = .error .protocolError) ∧
    (∀ p : JVal, validJ p = true →
      ((∀ cols, jGet p colsB ≠ some (JVal.arr cols)) ∨
       (∀ dat, jGet p datB ≠ some (JVal.arr dat))) →
      request_state props key (some (encrypt_payload p key)) =
        .error .protocolError) := by
  have hval : validJ (JVal.obj [(colsB, JVal.arr (names.map JVal.str)),
      (datB, JVal.arr vals)]) = true := by
    simp only [validJ, validMembs]
    simp [validElems_map_str names hn, hv, colsB, datB, strOk]
  refine ⟨?_, ?_, ?_⟩
  · intro hlen
    rw [request_state]
    simp only [decrypt_encrypt_payload _ _ hval]
    simp [jGet, lookupKv, colsB, datB, strNames_map_str, hlen]
  · intro hlen
    rw [request_state]
    simp only [decrypt_encrypt_payload _ _ hval]
    simp [jGet, lookupKv, colsB, datB, strNames_map_str, hlen]
  · intro p hp hshape
    rw [request_state]
    simp only [decrypt_encrypt_payload _ _ hp]
    rcases hshape with h | h
    · cases h1 : jGet p colsB with
      | none => simp [h1]
      | some v =>
        cases v with
        | arr cols => exact absurd h1 (h cols)
        | str s => simp [h1]
        | num n => simp [h1]
        | obj kvs => simp [h1]
    · cases h1 : jGet p colsB with
      | none => simp [h1]
      | some v =>
        cases v with
        | str s => simp [h1]
        | num n => simp [h1]
        | obj kvs => simp [h1]
        | arr cols =>
          cases h2 : jGet p datB with
          | none => simp [h1, h2]
          | some w =>
            cases w with
            | arr dat => exact absurd h2 (h dat)
            | str s => simp [h1, h2]
            | num n => simp [h1, h2]
            | obj kvs => simp [h1, h2]

/-- Witness for claim C3 at the status response fixture of the repository
tests, cols prop-a, prop-b against dat val-a, val-b. -/
theorem claim_C3_witness :
    request_state [propAB, propBB] generic_key (some (encrypt_payload
      (JVal.obj [(colsB, JVal.arr ([propAB, propBB].map JVal.str)),
        (datB, JVal.arr [JVal.str valAB, JVal.str valBB])]) generic_key)) =
      .ok [(propAB, JVal.str valAB), (propBB, JVal.str valBB)] :=
  (claim_C3_request_state [propAB, propBB] [propAB, propBB]
    [JVal.str valAB, JVal.str valBB] generic_key (by decide)
    (by simp only [validElems, validJ]; decide)).1 (by decide)

/-- Claim C4: send_state returns the PropertyMap obtained by zipping, by
position, the opt name list of the acknowledgment with its val value list;
when the responder echoes the sent names and values exactly, the returned map
equals the input map. -/
theorem claim_C4_send_state (m : PropMap) (names : List (List Nat))
    (vals : List JVal) (key : List Nat) :
    (names.all (fun s => s.all strOk) = true → validElems vals = true →
      names.length = vals.length →
      send_state m key (some (encrypt_payload
        (JVal.obj [(optB, JVal.arr (names.map JVal.str)),
          (valB, JVal.arr vals)]) key)) = .ok (names.zip vals)) ∧
    (m.all (fun kv => kv.1.all strOk && validJ kv.2) = true →
      send_state m key (some (encrypt_payload
        (JVal.obj [(optB, JVal.arr (m.map (fun kv => JVal.str kv.1))),
          (valB, JVal.arr (m.map Prod.snd))]) key)) = .ok m) := by
  have main : ∀ (ns : List (List Nat)) (vs : List JVal),
      ns.all (fun s => s.all strOk) = true → validElems vs = true →
      ns.length = vs.length →
      send_state m key (some (encrypt_payload
        (JVal.obj [(optB, JVal.arr (ns.map JVal.str)),
          (valB, JVal.arr vs)]) key)) = .ok (ns.zip vs) := by
    intro ns vs hn hv hlen
    have hval : validJ (JVal.obj [(optB, JVal.arr (ns.map JVal.str)),
        (valB, JVal.arr vs)]) = true := by
      simp only [validJ, validMembs]
      simp [validElems_map_str ns hn, hv, optB, valB, strOk]
    rw [send_state]
    simp only [decrypt_encrypt_payload _ _ hval]
    simp [jGet, lookupKv, optB, valB, strNames_map_str, hlen]
  refine ⟨main names vals, ?_⟩
  · intro hm
    have := main (m.map Prod.fst) (m.map Prod.snd) (all_keys_strOk m hm)
      (validElems_map_snd m hm) (by simp)
    rw [zip_fst_snd] at this
    have hmap : (m.map Prod.fst).map JVal.str = m.map (fun kv => JVal.str kv.1) := by
      simp [List.map_map]
    rw [hmap] at this
    exact this

/-- Witness for claim C4 at the cmd acknowledgment fixture of the repository
tests, where the responder echoes the sent map exactly. -/
theorem claim_C4_witness :
    send_state [(propAB, JVal.str valAB), (propBB, JVal.str valBB)] generic_key
      (some (encrypt_payload
        (JVal.obj [(optB, JVal.arr ([(propAB, JVal.str valAB),
            (propBB, JVal.str valBB)].map (fun kv => JVal.str kv.1))),
          (valB, JVal.arr ([(propAB, JVal.str valAB),
            (propBB, JVal.str valBB)].map Prod.snd))]) generic_key)) =
      .ok [(propAB, JVal.str valAB), (propBB, JVal.str valBB)] :=
  (claim_C4_send_state [(propAB, JVal.str valAB), (propBB, JVal.str valBB)]
    [] [] generic_key).2 (by simp only [List.all_cons, List.all_nil, validJ]; decide)

/-- The Boolean equality decides propositional equality, one level at a time
by strong induction on structure size. -/
theorem beqJ_iff_all : ∀ N : Nat,
    (∀ a : JVal, sizeOf a ≤ N → ∀ b, beqJ a b = true ↔ a = b) ∧
    (∀ xs : List JVal, sizeOf xs ≤ N → ∀ ys, beqL xs ys = true ↔ xs = ys) ∧
    (∀ kvs : List (List Nat × JVal), sizeOf kvs ≤ N →
      ∀ lvs, beqKv kvs lvs = true ↔ kvs = lvs) := by
  intro N
  induction N using Nat.strong_induction_on with
  | _ N ih =>
    refine ⟨?_, ?_, ?_⟩
    · intro a hsz b
      cases a with
      | str s =>
        cases b with
        | str t => simp [beqJ]
        | num m => simp [beqJ]
        | arr ys => simp [beqJ]
        | obj lvs => simp [beqJ]
      | num n =>
        cases b with
        | str t => simp [beqJ]
        | num m => simp [beqJ]
        | arr ys => simp [beqJ]
        | obj lvs => simp [beqJ]
      | arr xs =>
        cases b with
        | str t => simp [beqJ]
        | num m => simp [beqJ]
        | arr ys =>
          rw [beqJ]
          simp only [JVal.arr.sizeOf_spec] at hsz
          rw [((ih (N - 1) (by omega)).2.1) xs (by omega) ys]
          simp
        | obj lvs => simp [beqJ]
      | obj kvs =>
        cases b with
        | str t => simp [beqJ]
        | num m => simp [beqJ]
        | arr ys => simp [beqJ]
        | obj lvs =>
          rw [beqJ]
          simp only [JVal.obj.sizeOf_spec] at hsz
          rw [((ih (N - 1) (by omega)).2.2) kvs (by omega) lvs]
          simp
    · intro xs hsz ys
      cases xs with
      | nil => cases ys with
        | nil => simp [beqL]
        | cons y ys => simp [beqL]
      | cons x xs =>
        cases ys with
        | nil => simp [beqL]
        | cons y ys =>
          rw [beqL]
          simp only [List.cons.sizeOf_spec] at hsz
          have hx1 : 1 ≤ sizeOf x := by cases x <;> simp <;> omega
          rw [Bool.and_eq_true,
            ((ih (N - 1) (by omega)).1) x (by omega) y,
            ((ih (N - 1) (by omega)).2.1) xs (by omega) ys]
          simp
    · intro kvs hsz lvs
      cases kvs with
      | nil => cases lvs with
        | nil => simp [beqKv]
        | cons l ls => simp [beqKv]
      | cons kv r1 =>
        obtain ⟨k1, v1⟩ := kv
        cases lvs with
        | nil => simp [beqKv]
        | cons lv r2 =>
          obtain ⟨k2, v2⟩ := lv
          rw [beqKv]
          simp only [List.cons.sizeOf_spec, Prod.mk.sizeOf_spec] at hsz
          have hv1 : 1 ≤ sizeOf v1 := by cases v1 <;> simp <;> omega
          rw [Bool.and_eq_true, Bool.and_eq_true,
            ((ih (N - 1) (by omega)).1) v1 (by omega) v2,
            ((ih (N - 1) (by omega)).2.2) r1 (by omega) r2]
          simp only [beq_iff_eq]
          constructor
          · rintro ⟨⟨h1, h2⟩, h3⟩
            rw [h1, h2, h3]
          · rintro h
            injection h with h1 h2
            injection h1 with h3 h4
            exact ⟨⟨h3, h4⟩, h2⟩

theorem beqJ_iff (a b : JVal) : beqJ a b = true ↔ a = b :=
  (beqJ_iff_all (sizeOf a)).1 a le_rfl b

theorem beqOptJ_some_iff (o : Option JVal) (v : JVal) :
    beqOptJ o v = true ↔ o = some v := by
  cases o with
  | none => simp [beqOptJ]
  | some w => simp [beqOptJ, beqJ_iff]

/-- The two behaviors of set_property, split by whether the cached value
already equals the written one. -/
theorem set_property_hit (d : Device) (n : Props) (v : JVal)
    (out : Except NetErr PropMap) (m : PropMap)
    (hm : d._properties = some m) (hhit : lookupKv m n.value = some v) :
    Device.set_property d n v out = (d, [], .ok ()) := by
  have hd : ({ d with _properties := some m } : Device) = d := by
    obtain ⟨dk, dp⟩ := d
    simp only [Device.mk.injEq]
    exact ⟨trivial, hm.symm⟩
  have hb : beqOptJ (lookupKv m n.value) v = true :=
    (beqOptJ_some_iff _ _).mpr hhit
  unfold Device.set_property
  rw [hm]
  simp [hb, hd]

theorem set_property_miss (d : Device) (n : Props) (v : JVal)
    (out : Except NetErr PropMap)
    (hmiss : lookupKv (d._properties.getD []) n.value ≠ some v) :
    Device.set_property d n v out =
      ({ d with _properties := some (setKey (d._properties.getD []) n.value v) },
        [NetCall.sendState [(n.value, v)] d.device_key],
        match out with
        | .ok _ => .ok ()
        | .error e => .error (.net e)) := by
  have hb : beqOptJ (lookupKv (d._properties.getD []) n.value) v = false := by
    cases hB : beqOptJ (lookupKv (d._properties.getD []) n.value) v with
    | false => rfl
    | true => exact absurd ((beqOptJ_some_iff _ _).mp hB) hmiss
  unfold Device.set_property
  simp [hb]

theorem lookupKv_setKey_self (m : PropMap) (k : List Nat) (v : JVal) :
    lookupKv (setKey m k v) k = some v := by
  induction m with
  | nil => simp [setKey, lookupKv]
  | cons kv rest ih =>
    obtain ⟨k2, v2⟩ := kv
    rw [setKey]
    by_cases h : k2 = k
    · simp [h, lookupKv]
    · simp [h, lookupKv, ih]

theorem lookupKv_setKey_ne (m : PropMap) (k s : List Nat) (v : JVal)
    (h : s ≠ k) :
    lookupKv (setKey m k v) s = lookupKv m s := by
  have hks : k ≠ s := fun hh => h hh.symm
  induction m with
  | nil => simp [setKey, lookupKv, hks]
  | cons kv rest ih =>
    obtain ⟨k2, v2⟩ := kv
    rw [setKey]
    by_cases h2 : k2 = k
    · subst h2
      simp [lookupKv, hks]
    · rw [if_neg h2, lookupKv, lookupKv, ih]

/-- Counterexample to claim C5: set_property on a never bound device raises no
not bound error and performs the network send, passing key none. -/
theorem claim_C5_counterexample :
    (Device.set_property Device.init .POWER (JVal.num 1) (.ok [])).2.1 =
      [NetCall.sendState [(Props.POWER.value, JVal.num 1)] none] ∧
    (Device.set_property Device.init .POWER (JVal.num 1) (.ok [])).2.2 = .ok () := by
  have hmiss : lookupKv ((Device.init)._properties.getD []) Props.POWER.value ≠
      some (JVal.num 1) := by
    simp [Device.init, lookupKv]
  rw [set_property_miss _ _ _ _ hmiss]
  exact ⟨rfl, rfl⟩

/-- Claim C5 amended: with no device key held, update_state raises the not
bound error before any network access; set_property performs no such check
and, on any write that is not a cache hit, still invokes send_state with key
none. -/
theorem claim_C5_notbound_check (d : Device) (n : Props) (v : JVal)
    (out : Except NetErr PropMap)
    (hkey : d.device_key = none)
    (hmiss : lookupKv (d._properties.getD []) n.value ≠ some v) :
    Device.update_state d out = (d, [], .error .notBound) ∧
    (Device.set_property d n v out).2.1 =
      [NetCall.sendState [(n.value, v)] none] := by
  constructor
  · unfold Device.update_state
    rw [hkey]
  · rw [set_property_miss _ _ _ _ hmiss, hkey]

/-- Witness for claim C5 on a freshly constructed device. -/
theorem claim_C5_witness :
    Device.init.device_key = none ∧
    lookupKv ((Device.init)._properties.getD []) Props.MODE.value ≠
      some (JVal.num 1) ∧
    Device.update_state Device.init (.ok []) = (Device.init, [], .error .notBound) ∧
    (Device.set_property Device.init .MODE (JVal.num 1) (.ok [])).2.1 =
      [NetCall.sendState [(Props.MODE.value, JVal.num 1)] none] := by
  have h1 : Device.init.device_key = none := rfl
  have h2 : lookupKv ((Device.init)._properties.getD []) Props.MODE.value ≠
      some (JVal.num 1) := by
    simp [Device.init, lookupKv]
  have h := claim_C5_notbound_check Device.init .MODE (JVal.num 1) (.ok []) h1 h2
  exact ⟨h1, h2, h.1, h.2⟩

/-- Counterexample to claim C6: bind with the empty key supplied does run the
network exchange and stores the network key, not the supplied key verbatim. -/
theorem claim_C6_counterexample :
    (Device.bind Device.init (some []) (.ok acbdB)).2.1 = [NetCall.bindDevice] ∧
    (Device.bind Device.init (some []) (.ok acbdB)).1.device_key = some acbdB := by
  exact ⟨rfl, rfl⟩

/-- Claim C6 amended: bind with a supplied non empty key performs no network
call and adopts the key verbatim; a supplied empty key is falsy under the
Python truthiness test of device.py and triggers the network bind exchange
exactly as an absent key does. -/
theorem claim_C6_bind_shortcut (d : Device) (k : List Nat)
    (netOut : Except NetErr (List Nat)) (hk : k ≠ []) :
    Device.bind d (some k) netOut =
      ({ d with device_key := some k }, [], .ok ()) ∧
    (Device.bind d none netOut).2.1 = [NetCall.bindDevice] ∧
    (Device.bind d (some []) netOut).2.1 = [NetCall.bindDevice] := by
  have hke : k.isEmpty = false := by
    cases k with
    | nil => exact absurd rfl hk
    | cons a as => rfl
  refine ⟨?_, ?_, ?_⟩
  · unfold Device.bind
    simp [hke]
  · unfold Device.bind Device.bindViaNet
    cases netOut <;> rfl
  · unfold Device.bind Device.bindViaNet
    cases netOut <;> rfl

/-- Witness for claim C6 at the fixture key acbd1234. -/
theorem claim_C6_witness :
    acbdB ≠ [] ∧
    Device.bind Device.init (some acbdB) (.ok []) =
      ({ Device.init with device_key := some acbdB }, [], .ok ()) :=
  ⟨by decide, (claim_C6_bind_shortcut Device.init acbdB (.ok []) (by decide)).1⟩

/-- Claim C7: on a bound device (one holding a truthy, non empty key),
update_state requests every property of the known vocabulary in one
request_state exchange and replaces the cached map with the returned one,
after which get_property reads each name from the fresh map. -/
theorem claim_C7_update_state (d : Device) (k : List Nat) (m : PropMap)
    (h : d.device_key = some k) (hk : k ≠ []) :
    Device.update_state d (.ok m) =
      ({ d with _properties := some m },
        [NetCall.requestState (Props.all.map Props.value) k], .ok ()) ∧
    (∀ p : Props, p.value ∈ Props.all.map Props.value) ∧
    (∀ p : Props,
      (Device.update_state d (.ok m)).1.get_property p = lookupKv m p.value) := by
  have hke : k.isEmpty = false := by
    cases k with
    | nil => exact absurd rfl hk
    | cons a as => rfl
  have hup : Device.update_state d (.ok m) =
      ({ d with _properties := some m },
        [NetCall.requestState (Props.all.map Props.value) k], .ok ()) := by
    unfold Device.update_state
    rw [h]
    simp [hke]
  refine ⟨hup, ?_, ?_⟩
  · intro p
    refine List.mem_map_of_mem Props.value ?_
    cases p <;> simp [Props.all]
  · intro p
    rw [hup]
    unfold Device.get_property
    cases m with
    | nil => simp [lookupKv]
    | cons kv rest => simp

/-- Witness for claim C7 on a device bound with the fixture key. -/
theorem claim_C7_witness :
    (Device.mk (some acbdB) none).device_key = some acbdB ∧
    Device.update_state (Device.mk (some acbdB) none)
        (.ok [(propAB, JVal.str valAB)]) =
      (Device.mk (some acbdB) (some [(propAB, JVal.str valAB)]),
        [NetCall.requestState (Props.all.map Props.value) acbdB], .ok ()) := by
  have h := claim_C7_update_state (Device.mk (some acbdB) none) acbdB
    [(propAB, JVal.str valAB)] rfl (by decide)
  exact ⟨rfl, h.1⟩

/-- Claim C8: set_property skips the network send and leaves the cache intact
when the cached value already equals the written one, and otherwise writes the
value into the cache and sends exactly the single entry map for that name. -/
theorem claim_C8_set_property :
    (∀ (d : Device) (n : Props) (v : JVal) (out : Except NetErr PropMap)
      (m : PropMap), d._properties = some m → lookupKv m n.value = some v →
      Device.set_property d n v out = (d, [], .ok ())) ∧
    (∀ (d : Device) (n : Props) (v : JVal) (out : Except NetErr PropMap),
      lookupKv (d._properties.getD []) n.value ≠ some v →
      (Device.set_property d n v out).1._properties =
        some (setKey (d._properties.getD []) n.value v) ∧
      (Device.set_property d n v out).2.1 =
        [NetCall.sendState [(n.value, v)] d.device_key]) := by
  constructor
  · intro d n v out m hm hhit
    exact set_property_hit d n v out m hm hhit
  · intro d n v out hmiss
    rw [set_property_miss _ _ _ _ hmiss]
    exact ⟨rfl, rfl⟩

/-- Witness for claim C8: a cache hit write and a cache miss write on concrete
devices. -/
theorem claim_C8_witness :
    ((Device.mk none (some [(Props.POWER.value, JVal.num 1)]))._properties =
      some [(Props.POWER.value, JVal.num 1)] ∧
     lookupKv [(Props.POWER.value, JVal.num 1)] Props.POWER.value =
      some (JVal.num 1) ∧
     Device.set_property (Device.mk none (some [(Props.POWER.value, JVal.num 1)]))
        .POWER (JVal.num 1) (.ok []) =
      (Device.mk none (some [(Props.POWER.value, JVal.num 1)]), [], .ok ())) ∧
    (lookupKv ((Device.init)._properties.getD []) Props.POWER.value ≠
      some (JVal.num 1) ∧
     (Device.set_property Device.init .POWER (JVal.num 1) (.ok [])).2.1 =
      [NetCall.sendState [(Props.POWER.value, JVal.num 1)] none]) := by
  have hhit : lookupKv [(Props.POWER.value, JVal.num 1)] Props.POWER.value =
      some (JVal.num 1) := by
    simp [lookupKv]
  have hmiss : lookupKv ((Device.init)._properties.getD []) Props.POWER.value ≠
      some (JVal.num 1) := by
    simp [Device.init, lookupKv]
  refine ⟨⟨rfl, hhit, ?_⟩, hmiss, ?_⟩
  · exact (claim_C8_set_property).1 _ .POWER (JVal.num 1) (.ok []) _ rfl hhit
  · exact ((claim_C8_set_property).2 _ .POWER (JVal.num 1) (.ok []) hmiss).2

/-- Claim C9: on a cache miss write, set_property mutates only the entry of
the written name, and the mutation is in place before the send is consulted:
even when the send fails, the final state holds the new value for that name,
every other name is unchanged, exactly the single entry send was issued, and
the failure propagates. -/
theorem claim_C9_cache_before_send (d : Device) (n : Props) (v : JVal)
    (e : NetErr)
    (hmiss : lookupKv (d._properties.getD []) n.value ≠ some v) :
    lookupKv ((Device.set_property d n v (.error e)).1._properties.getD [])
      n.value = some v ∧
    (∀ s, s ≠ n.value →
      lookupKv ((Device.set_property d n v (.error e)).1._properties.getD []) s =
        lookupKv (d._properties.getD []) s) ∧
    (Device.set_property d n v (.error e)).2.1 =
      [NetCall.sendState [(n.value, v)] d.device_key] ∧
    (Device.set_property d n v (.error e)).2.2 = .error (.net e) := by
  rw [set_property_miss _ _ _ _ hmiss]
  refine ⟨?_, ?_, rfl, rfl⟩
  · simp [lookupKv_setKey_self]
  · intro s hs
    simp [lookupKv_setKey_ne _ _ _ _ hs]

/-- Witness for claim C9 on a fresh device and a failing send. -/
theorem claim_C9_witness :
    lookupKv ((Device.init)._properties.getD []) Props.POWER.value ≠
      some (JVal.num 1) ∧
    lookupKv ((Device.set_property Device.init .POWER (JVal.num 1)
        (.error .timeout)).1._properties.getD []) Props.POWER.value =
      some (JVal.num 1) ∧
    (Device.set_property Device.init .POWER (JVal.num 1)
        (.error .timeout)).2.2 = .error (.net .timeout) := by
  have hmiss : lookupKv ((Device.init)._properties.getD []) Props.POWER.value ≠
      some (JVal.num 1) := by
    simp [Device.init, lookupKv]
  have h := claim_C9_cache_before_send Device.init .POWER (JVal.num 1)
    .timeout hmiss
  exact ⟨hmiss, h.1, h.2.2.2⟩

/-- Claim C10: on a freshly constructed device, before any state update,
get_property returns none for every property name; every boolean typed
accessor reads false without raising, and every integer typed accessor fails
with the TypeError of int applied to None. -/
theorem claim_C10_fresh_device :
    (∀ name : Props, Device.init.get_property name = none) ∧
    Device.init.power = false ∧
    Device.init.fresh_air = false ∧
    Device.init.xfan = false ∧
    Device.init.anion = false ∧
    Device.init.sleep = false ∧
    Device.init.light = false ∧
    Device.init.quiet = false ∧
    Device.init.turbo = false ∧
    Device.init.steady_heat = false ∧
    Device.init.power_save = false ∧
    Device.init.mode = .error .typeError ∧
    Device.init.target_temperature = .error .typeError ∧
    Device.init.temperature_units = .error .typeError ∧
    Device.init.fan_speed = .error .typeError ∧
    Device.init.horizontal_swing = .error .typeError ∧
    Device.init.vertical_swing = .error .typeError := by
  refine ⟨fun name => rfl, ?_, ?_, ?_, ?_, ?_, ?_, ?_, ?_, ?_, ?_, ?_, ?_, ?_,
    ?_, ?_, ?_⟩ <;> rfl

end Gree
